import Mathlib

/-!
Verification of the moltslack authorization / channel / message core.

Shallow embedding of the TypeScript sources:
  - ChannelService (channel creation, membership, access control)
  - MessageService (send, indexing, signatures, delivery state, reads)
  - AuthService.checkPermissions (implementation file absent from the
    repository; modelled from the spec, see the marked definition)

Modelling conventions:
  - JS Map objects become insertion-ordered association lists with
    lookupA / setA mirroring Map.get / Map.set (set replaces in place,
    otherwise appends).
  - JS Set objects of member ids become duplicate-free lists; the code
    itself guards add with has, so plain list append suffices.
  - ISO-8601 timestamps are modelled as Nat instants: toISOString and
    new Date(x).getTime() round-trip, and lexical order on the strings
    agrees with numeric order, so sentAt comparisons carry over.
  - uuid() and new Date() are environment inputs; operations take the
    fresh id and the current instant as explicit arguments.
  - crypto.createHmac over JSON.stringify of the signed fields is
    modelled symbolically: a Signature value is the tuple of the signing
    key and the signed fields, so equality of signatures coincides with
    equality of the signed data (perfect, collision-free MAC model).
  - The relay client (Broadcaster) is modelled as an event log in the
    state; relayWired says whether a relay client was injected.
  - The optional SQLite storage is modelled as absent: every storage
    call in the code is fire-and-forget and mutates no in-memory state
    synchronously, so the in-memory semantics is unchanged.
-/

namespace Moltslack

/-- Association-list lookup, mirroring JS Map.get. -/
def lookupA {α : Type} : List (String × α) → String → Option α
  | [], _ => none
  | (k, v) :: rest, key => if key = k then some v else lookupA rest key

/-- Association-list update, mirroring JS Map.set: replace in place if the
key is present, otherwise append at the end (insertion order preserved). -/
def setA {α : Type} : List (String × α) → String → α → List (String × α)
  | [], key, v => [(key, v)]
  | (k, w) :: rest, key, v =>
      if key = k then (key, v) :: rest else (k, w) :: setA rest key v

/-- Association-list removal, mirroring JS Map.delete. -/
def delA {α : Type} (m : List (String × α)) (key : String) : List (String × α) :=
  m.filter (fun p => p.1 ≠ key)

/-! ## Channel layer (src ChannelService, unnamed/part_003) -/

/-- Access levels: the source values are the strings read, write, admin. -/
inductive AccessLevel
  | read
  | write
  | admin
deriving DecidableEq, Repr

/-- Index of a level inside the array [read, write, admin]
(accessLevelSatisfies uses levels.indexOf). -/
def levelIndex : AccessLevel → Nat
  | .read => 0
  | .write => 1
  | .admin => 2

/-- accessLevelSatisfies: levels.indexOf(actual) >= levels.indexOf(required). -/
def accessLevelSatisfies (actual required : AccessLevel) : Bool :=
  levelIndex required ≤ levelIndex actual

/-- The spec ordering chain read < write < admin, written out as a strict
comparison table; used to compare accessLevelSatisfies against the spec
wording that satisfaction is actual at least required on that order. -/
def levelLT : AccessLevel → AccessLevel → Bool
  | .read, .write => true
  | .read, .admin => true
  | .write, .admin => true
  | _, _ => false

/-- principalType of an access rule: the source values are all and agent
(the spec calls them everyone and identity). -/
inductive PrincipalType
  | all
  | agent
deriving DecidableEq, Repr

structure ChannelAccessRule where
  principal : String
  principalType : PrincipalType
  level : AccessLevel
deriving DecidableEq, Repr

/-- Channel kinds: source values PUBLIC, PRIVATE, BROADCAST, DIRECT
(the spec calls them open, restricted, broadcast, direct). -/
inductive ChannelType
  | pub
  | priv
  | broadcast
  | direct
deriving DecidableEq, Repr

/-- Channel metadata; only the fields the source sets at creation. -/
structure ChannelMetadata where
  displayName : String
  topic : Option String
  isArchived : Bool
  allowExternal : Bool
deriving DecidableEq, Repr

structure Channel where
  id : String
  name : String
  projectId : String
  channelType : ChannelType
  accessRules : List ChannelAccessRule
  defaultAccess : Option AccessLevel
  metadata : ChannelMetadata
  createdBy : String
  createdAt : Nat
  memberCount : Nat
deriving DecidableEq, Repr

structure ChannelCreateInput where
  name : String
  channelType : Option ChannelType
  topic : Option String
deriving DecidableEq, Repr

/-- ChannelService in-memory state: channels map, name index, memberships. -/
structure ChannelState where
  projectId : String
  channels : List (String × Channel)
  nameIndex : List (String × String)
  memberships : List (String × List String)
deriving DecidableEq, Repr

def ChannelState.empty (projectId : String) : ChannelState :=
  { projectId := projectId, channels := [], nameIndex := [], memberships := [] }

/-- Error taxonomy for operations that throw in the source. -/
inductive Err
  | permissionDenied
  | alreadyExists
deriving DecidableEq, Repr

namespace ChannelService

/-- createDefaultAccessRules, switching on the channel type. -/
def createDefaultAccessRules : ChannelType → List ChannelAccessRule
  | .pub => [{ principal := "*", principalType := .all, level := .write }]
  | .priv => []
  | .broadcast => [{ principal := "*", principalType := .all, level := .read }]
  | .direct => []

/-- create: duplicate names throw AlreadyExists; the channel type defaults
to PUBLIC; defaultAccess is null exactly when the input type is PRIVATE,
otherwise read; the fresh id and creation instant are environment inputs. -/
def create (s : ChannelState) (input : ChannelCreateInput) (createdBy : String)
    (id : String) (now : Nat) : Except Err (Channel × ChannelState) :=
  if (lookupA s.nameIndex input.name).isSome then
    .error .alreadyExists
  else
    let channel : Channel :=
      { id := id
        name := input.name
        projectId := s.projectId
        channelType := input.channelType.getD .pub
        accessRules := createDefaultAccessRules (input.channelType.getD .pub)
        defaultAccess := if input.channelType = some .priv then none else some .read
        metadata :=
          { displayName := input.name, topic := input.topic,
            isArchived := false, allowExternal := false }
        createdBy := createdBy
        createdAt := now
        memberCount := 0 }
    .ok (channel,
      { s with
        channels := setA s.channels id channel
        nameIndex := setA s.nameIndex input.name id
        memberships := setA s.memberships id [] })

/-- matchRule: an all rule matches every agent; an agent rule matches when
the principal equals the agent id. -/
def matchRule (rule : ChannelAccessRule) (agentId : String) : Bool :=
  rule.principalType = .all ||
    (rule.principalType = .agent && rule.principal = agentId)

/-- checkAccess: the first matching rule decides; otherwise the (truthy)
defaultAccess decides; otherwise access is denied. -/
def checkAccess (s : ChannelState) (channelId agentId : String)
    (requiredLevel : AccessLevel) : Bool :=
  match lookupA s.channels channelId with
  | none => false
  | some channel =>
      match channel.accessRules.find? (fun r => matchRule r agentId) with
      | some rule => accessLevelSatisfies rule.level requiredLevel
      | none =>
          match channel.defaultAccess with
          | some lvl => accessLevelSatisfies lvl requiredLevel
          | none => false

/-- join: false for a missing channel or membership set; throws
PermissionDenied without read access; adds the member and refreshes
memberCount only when not already a member; returns true. -/
def join (s : ChannelState) (channelId agentId : String) :
    Except Err (Bool × ChannelState) :=
  match lookupA s.channels channelId with
  | none => .ok (false, s)
  | some channel =>
      if ¬ checkAccess s channelId agentId .read then
        .error .permissionDenied
      else
        match lookupA s.memberships channelId with
        | none => .ok (false, s)
        | some members =>
            if agentId ∈ members then .ok (true, s)
            else
              let members' := members ++ [agentId]
              .ok (true,
                { s with
                  memberships := setA s.memberships channelId members'
                  channels := setA s.channels channelId
                    { channel with memberCount := members'.length } })

/-- leave: false for a missing channel or membership set; removes the
member and refreshes memberCount only when present; returns true. -/
def leave (s : ChannelState) (channelId agentId : String) :
    Except Err (Bool × ChannelState) :=
  match lookupA s.channels channelId with
  | none => .ok (false, s)
  | some channel =>
      match lookupA s.memberships channelId with
      | none => .ok (false, s)
      | some members =>
          if agentId ∈ members then
            let members' := members.filter (fun m => m ≠ agentId)
            .ok (true,
              { s with
                memberships := setA s.memberships channelId members'
                channels := setA s.channels channelId
                  { channel with memberCount := members'.length } })
          else .ok (true, s)

/-- addAccessRule: false for an unknown channel, else appends the rule. -/
def addAccessRule (s : ChannelState) (channelId : String)
    (rule : ChannelAccessRule) : Bool × ChannelState :=
  match lookupA s.channels channelId with
  | none => (false, s)
  | some channel =>
      (true,
        { s with
          channels := setA s.channels channelId
            { channel with accessRules := channel.accessRules ++ [rule] } })

end ChannelService

/-! ## Message layer (src MessageService) -/

/-- Message target kinds: source values channel, agent, broadcast. -/
inductive TargetType
  | channel
  | agent
  | broadcast
deriving DecidableEq, Repr

/-- Delivery states: source values sent, delivered, read. -/
inductive DeliveryStatus
  | sent
  | delivered
  | read
deriving DecidableEq, Repr

/-- Mention kinds: source values all and agent (the spec calls them
everyone and identity). -/
inductive MentionType
  | all
  | agent
deriving DecidableEq, Repr

/-- A mention record: kind, start index of the @ character, and length of
the whole @token. -/
structure Mention where
  mentionType : MentionType
  startIndex : Nat
  length : Nat
deriving DecidableEq, Repr

/-- Message content: text, opaque data payload, extracted mentions, and
attachments (always empty at creation in the source). -/
structure MessageContent where
  text : String
  data : Option String
  mentions : List Mention
  attachments : List String
deriving DecidableEq, Repr

/-- Symbolic model of signMessage: HMAC-SHA256 over the JSON payload of
(id, senderId, content, sentAt) under the signing key is modelled as the
tuple of those inputs, a perfect collision-free MAC. -/
structure Signature where
  key : String
  id : String
  senderId : String
  content : MessageContent
  sentAt : Nat
deriving DecidableEq, Repr

structure Message where
  id : String
  projectId : String
  targetId : String
  targetType : TargetType
  senderId : String
  msgType : String
  content : MessageContent
  threadId : Option String
  correlationId : Option String
  signature : Signature
  deliveryStatus : DeliveryStatus
  sentAt : Nat
  editedAt : Option Nat
  deletedAt : Option Nat
deriving DecidableEq, Repr

structure MessageSendInput where
  targetId : String
  targetType : TargetType
  msgType : Option String
  text : String
  data : Option String
  threadId : Option String
  correlationId : Option String
deriving DecidableEq, Repr

/-- One relay-client call, recorded in an event log that models the
fire-and-forget Broadcaster interface. -/
inductive DispatchEvent
  | toChannel (channelId messageId : String)
  | toAgent (agentId messageId : String)
  | broadcastAll (messageId : String)
  | relayEvent (source target messageId action : String)
deriving DecidableEq, Repr

/-- MessageService in-memory state. channelService is the injected
ChannelService dependency (optional in the source constructor);
relayWired says whether a relay client was injected; dispatched is the
log of relay calls made so far. -/
structure MessageState where
  projectId : String
  messages : List (String × Message)
  channelMessages : List (String × List String)
  threadMessages : List (String × List String)
  channelService : Option ChannelState
  signingKey : String
  relayWired : Bool
  dispatched : List DispatchEvent
deriving DecidableEq, Repr

namespace MessageService

/-- A word character of the regex class in @(\w+): ASCII letter, digit,
or underscore. -/
def wordChar (c : Char) : Bool :=
  c.isAlphanum || c = '_'

/-- Classification of a mention token: all and here give an all mention,
anything else an agent mention. -/
def classifyMention (w : List Char) : MentionType :=
  if w = "all".toList ∨ w = "here".toList then .all else .agent

/-- The scan loop of extractMentions: repeatedly search for @ followed by
a maximal nonempty run of word characters, recording kind, start index of
the @, and length of the whole match, then continue after the match
(regex exec with the g flag). -/
def scanMentions : List Char → Nat → List Mention
  | [], _ => []
  | c :: rest, i =>
      if c = '@' then
        let w := rest.takeWhile wordChar
        if w = [] then
          scanMentions rest (i + 1)
        else
          { mentionType := classifyMention w, startIndex := i, length := w.length + 1 }
            :: scanMentions (rest.drop w.length) (i + 1 + w.length)
      else
        scanMentions rest (i + 1)
termination_by l _ => l.length
decreasing_by
  · simp
  · simp only [List.length_drop, List.length_cons]
    omega
  · simp

/-- extractMentions over the text (string positions are character
positions; all inputs of interest are ASCII, where this agrees with the
JS UTF-16 indices). -/
def extractMentions (text : String) : List Mention :=
  scanMentions text.toList 0

/-- signMessage in the symbolic MAC model. -/
def signMessage (key : String) (id senderId : String) (content : MessageContent)
    (sentAt : Nat) : Signature :=
  { key := key, id := id, senderId := senderId, content := content, sentAt := sentAt }

/-- The relay dispatch of a freshly sent message, by target kind; no
event when no relay client is wired. -/
def broadcastEvents (s : MessageState) (m : Message) : List DispatchEvent :=
  if s.relayWired then
    match m.targetType with
    | .channel => [.toChannel m.targetId m.id]
    | .agent => [.toAgent m.targetId m.id]
    | .broadcast => [.broadcastAll m.id]
  else []

/-- Append a message id to a channel or thread index list. -/
def indexPush (m : List (String × List String)) (key id : String) :
    List (String × List String) :=
  setA m key ((lookupA m key).getD [] ++ [id])

/-- The storage and dispatch portion of send, after the access check has
passed: build the record, store it, index by channel and by thread
(a JS-falsy empty thread id is skipped), and dispatch. -/
def sendStore (s : MessageState) (input : MessageSendInput) (senderId : String)
    (id : String) (now : Nat) : Message × MessageState :=
  let content : MessageContent :=
    { text := input.text, data := input.data,
      mentions := extractMentions input.text, attachments := [] }
  let message : Message :=
    { id := id
      projectId := s.projectId
      targetId := input.targetId
      targetType := input.targetType
      senderId := senderId
      msgType := input.msgType.getD "text"
      content := content
      threadId := input.threadId
      correlationId := input.correlationId
      signature := signMessage s.signingKey id senderId content now
      deliveryStatus := .sent
      sentAt := now
      editedAt := none
      deletedAt := none }
  (message,
    { s with
      messages := setA s.messages id message
      channelMessages :=
        if input.targetType = .channel then
          indexPush s.channelMessages input.targetId id
        else s.channelMessages
      threadMessages :=
        match input.threadId with
        | some tid => if tid = "" then s.threadMessages else indexPush s.threadMessages tid id
        | none => s.threadMessages
      dispatched := s.dispatched ++ broadcastEvents s message })

/-- send: for a channel target with an injected ChannelService, write
access is checked first and failure throws PermissionDenied before any
mutation; otherwise the message is stored, indexed, and dispatched. -/
def send (s : MessageState) (input : MessageSendInput) (senderId : String)
    (id : String) (now : Nat) : Except Err (Message × MessageState) :=
  match input.targetType, s.channelService with
  | .channel, some cs =>
      if ChannelService.checkAccess cs input.targetId senderId .write then
        .ok (sendStore s input senderId id now)
      else
        .error .permissionDenied
  | _, _ => .ok (sendStore s input senderId id now)

/-- The state a caller is left with after an operation: the new state on
success, the unchanged input state when the operation threw. -/
def resultState {α σ : Type} (r : Except Err (α × σ)) (s : σ) : σ :=
  match r with
  | .ok (_, s') => s'
  | .error _ => s

/-- getById. -/
def getById (s : MessageState) (id : String) : Option Message :=
  lookupA s.messages id

/-- Stable insertion into a list sorted by sentAt descending: the new
element goes before the first strictly older element, so elements with
equal sentAt keep their relative order, as the stable JS sort does. -/
def insertDesc (m : Message) : List Message → List Message
  | [] => [m]
  | x :: xs => if x.sentAt < m.sentAt then m :: x :: xs else x :: insertDesc m xs

/-- Stable sort by sentAt descending, modelling messages.sort with the
comparator on new Date(sentAt).getTime() values. -/
def sortDesc : List Message → List Message
  | [] => []
  | m :: rest => insertDesc m (sortDesc rest)

/-- getChannelMessages: resolve the channel index, drop soft-deleted
messages, sort newest first by sentAt, apply the before cursor only when
it is truthy and resolves to a known message (strictly older survivors),
and truncate to the limit. The storage-reload branch is a no-op here
(storage is modelled as absent; it is asynchronous in the source). -/
def getChannelMessages (s : MessageState) (channelId : String)
    (limit : Nat := 50) (before : Option String := none) : List Message :=
  let ids := (lookupA s.channelMessages channelId).getD []
  let msgs := ids.filterMap (fun id => lookupA s.messages id)
  let msgs := msgs.filter (fun m => m.deletedAt = none)
  let msgs := sortDesc msgs
  let msgs :=
    match before with
    | some b =>
        if b = "" then msgs
        else
          match lookupA s.messages b with
          | some beforeMsg => msgs.filter (fun m => m.sentAt < beforeMsg.sentAt)
          | none => msgs
    | none => msgs
  msgs.take limit

/-- edit: false for an unknown message; PermissionDenied for a non-sender
editor; otherwise the text is replaced, editedAt set, the signature
recomputed over the updated content, and an edit event emitted. -/
def edit (s : MessageState) (messageId newText editorId : String) (now : Nat) :
    Except Err (Bool × MessageState) :=
  match lookupA s.messages messageId with
  | none => .ok (false, s)
  | some message =>
      if message.senderId ≠ editorId then
        .error .permissionDenied
      else
        let content' := { message.content with text := newText }
        let message' :=
          { message with
            content := content'
            editedAt := some now
            signature :=
              signMessage s.signingKey message.id message.senderId content' message.sentAt }
        .ok (true,
          { s with
            messages := setA s.messages messageId message'
            dispatched := s.dispatched ++
              (if s.relayWired then
                [.relayEvent editorId message.targetId messageId "edited"]
              else []) })

/-- delete: false for an unknown message; PermissionDenied for a
non-sender deleter; otherwise sets deletedAt and emits a delete event. -/
def delete (s : MessageState) (messageId deleterId : String) (now : Nat) :
    Except Err (Bool × MessageState) :=
  match lookupA s.messages messageId with
  | none => .ok (false, s)
  | some message =>
      if message.senderId ≠ deleterId then
        .error .permissionDenied
      else
        .ok (true,
          { s with
            messages := setA s.messages messageId { message with deletedAt := some now }
            dispatched := s.dispatched ++
              (if s.relayWired then
                [.relayEvent deleterId message.targetId messageId "deleted"]
              else []) })

/-- markDelivered: updates the status to delivered only when the message
exists and its status is sent; otherwise leaves the state unchanged.
Total, so it never throws. -/
def markDelivered (s : MessageState) (messageId _recipientId : String) : MessageState :=
  match lookupA s.messages messageId with
  | some message =>
      if message.deliveryStatus = .sent then
        { s with
          messages := setA s.messages messageId { message with deliveryStatus := .delivered } }
      else s
  | none => s

/-- markRead: unconditionally sets the status to read when the message
exists; otherwise leaves the state unchanged. Total, so it never throws. -/
def markRead (s : MessageState) (messageId _readerId : String) : MessageState :=
  match lookupA s.messages messageId with
  | some message =>
      { s with
        messages := setA s.messages messageId { message with deliveryStatus := .read } }
  | none => s

/-- verifySignature: recompute the signature from the current fields and
compare with the stored one. -/
def verifySignature (s : MessageState) (m : Message) : Bool :=
  m.signature = signMessage s.signingKey m.id m.senderId m.content m.sentAt

end MessageService

/-! ## Capability layer (AuthService.checkPermissions) -/

/-- A capability: a resource pattern together with granted actions. -/
structure Permission where
  resource : String
  actions : List AccessLevel
deriving DecidableEq, Repr

namespace AuthService

/-- Does the character list end with a star (String.endsWith on the
character level)? -/
def endsWithStar : List Char → Bool
  | [] => false
  | [c] => c = '*'
  | _ :: rest => endsWithStar rest

/-- Character-level String.startsWith. -/
def isPrefixL : List Char → List Char → Bool
  | [], _ => true
  | _ :: _, [] => false
  | a :: as, b :: bs => a = b && isPrefixL as bs

/-- Modelled from the spec: the AuthService implementation file is not in
the repository (only its unit tests are). Resource matching is exact
string match, or the global star pattern, or a pattern ending in star
whose prefix (the pattern minus the trailing star) starts the resource. -/
def matchResource (pattern resource : String) : Bool :=
  pattern = resource || pattern = "*" ||
    (endsWithStar pattern.toList && isPrefixL pattern.toList.dropLast resource.toList)

/-- Modelled from the spec: an action matches a capability when it is in
the action set or the set contains admin (admin subsumes read and write
for the matched resource). -/
def matchAction (actions : List AccessLevel) (action : AccessLevel) : Bool :=
  actions.contains action || actions.contains AccessLevel.admin

/-- Modelled from the spec: checkPermissions (authorize) is existential
over the capability list; any one capability matching both the resource
and the action grants access; the empty list grants nothing. -/
def checkPermissions (permissions : List Permission) (resource : String)
    (action : AccessLevel) : Bool :=
  permissions.any fun p => matchResource p.resource resource && matchAction p.actions action

end AuthService

end Moltslack

namespace Moltslack

/-! ## Concrete fixtures used by the conformance checks and witnesses -/

/-- A private channel with no access rules and no default access, denying
every request (the locked channel of the unit tests). -/
def lockedChannel : Channel :=
  { id := "ch-locked", name := "locked", projectId := "proj-123",
    channelType := .priv, accessRules := [], defaultAccess := none,
    metadata := { displayName := "locked", topic := none,
                  isArchived := false, allowExternal := false },
    createdBy := "agent-1", createdAt := 0, memberCount := 0 }

/-- An open (PUBLIC) channel: one everyone-write rule, default read. -/
def openChannel : Channel :=
  { id := "ch-open", name := "general", projectId := "proj-123",
    channelType := .pub,
    accessRules := [{ principal := "*", principalType := .all, level := .write }],
    defaultAccess := some .read,
    metadata := { displayName := "general", topic := none,
                  isArchived := false, allowExternal := false },
    createdBy := "agent-1", createdAt := 0, memberCount := 0 }

/-- A ChannelService state holding the locked and the open channel. -/
def chanFixture : ChannelState :=
  { projectId := "proj-123",
    channels := [("ch-locked", lockedChannel), ("ch-open", openChannel)],
    nameIndex := [("locked", "ch-locked"), ("general", "ch-open")],
    memberships := [("ch-locked", []), ("ch-open", [])] }

/-- An empty MessageService state without an injected ChannelService. -/
def msgState0 : MessageState :=
  { projectId := "proj-123", messages := [], channelMessages := [],
    threadMessages := [], channelService := none, signingKey := "key-1",
    relayWired := true, dispatched := [] }

/-- An empty MessageService state wired to the channel fixture. -/
def msgStateChecked : MessageState :=
  { msgState0 with channelService := some chanFixture }

/-- A channel send input with the given text. -/
def chInput (text : String) : MessageSendInput :=
  { targetId := "ch-1", targetType := .channel, msgType := none, text := text,
    data := none, threadId := none, correlationId := none }

/-- Run send and keep the resulting state (the input state on a throw). -/
def stepSend (s : MessageState) (input : MessageSendInput) (senderId id : String)
    (now : Nat) : MessageState :=
  MessageService.resultState (MessageService.send s input senderId id now) s

/-- A single stored direct message in state sent, for delivery-state checks. -/
def fixtureMessage : Message :=
  { id := "m0", projectId := "proj-123", targetId := "agent-2", targetType := .agent,
    senderId := "agent-1", msgType := "text",
    content := { text := "ping", data := none, mentions := [], attachments := [] },
    threadId := none, correlationId := none,
    signature := MessageService.signMessage "key-1" "m0" "agent-1"
      { text := "ping", data := none, mentions := [], attachments := [] } 7,
    deliveryStatus := .sent, sentAt := 7, editedAt := none, deletedAt := none }

/-- msgState0 holding just fixtureMessage. -/
def msgStateOne : MessageState :=
  { msgState0 with messages := [("m0", fixtureMessage)] }

/-- Three messages sent to ch-1 at instants 1 < 2 < 3. -/
def threeSent : MessageState :=
  stepSend (stepSend (stepSend msgState0 (chInput "first") "agent-1" "m1" 1)
    (chInput "second") "agent-1" "m2" 2) (chInput "third") "agent-1" "m3" 3

/-- Channel-create input for a concrete direct channel. -/
def dmInput : ChannelCreateInput :=
  { name := "dm", channelType := some .direct, topic := none }

/-- The result of creating the direct channel on an empty registry. -/
def dmCreate : Except Err (Channel × ChannelState) :=
  ChannelService.create (ChannelState.empty "proj-123") dmInput "alice" "ch-dm" 0

/-- The registry state after the direct-channel create. -/
def dmState : ChannelState :=
  MessageService.resultState dmCreate (ChannelState.empty "proj-123")

/-- The direct channel produced by the create. -/
def dmChannel : Channel :=
  match dmCreate with
  | .ok (c, _) => c
  | .error _ => lockedChannel

/-- A concrete direct-message send input carrying a thread id. -/
def agentPing : MessageSendInput :=
  { targetId := "agent-2", targetType := .agent, msgType := none, text := "ping",
    data := none, threadId := some "t1", correlationId := none }

/-- threeSent after agent-1 soft-deletes m2. -/
def threeSentDel : MessageState :=
  MessageService.resultState (MessageService.delete threeSent "m2" "agent-1" 4) threeSent

/-- The registry state after agent-2 joins the open channel. -/
def joinedState : ChannelState :=
  MessageService.resultState (ChannelService.join chanFixture "ch-open" "agent-2")
    chanFixture

/-! ## Theorems -/

theorem lookupA_setA_self {α : Type} (m : List (String × α)) (k : String) (v : α) :
    lookupA (setA m k v) k = some v := by
  induction m with
  | nil => simp [setA, lookupA]
  | cons p rest ih =>
      obtain ⟨k', w⟩ := p
      by_cases h : k = k'
      · simp [setA, h, lookupA]
      · simp [setA, h, lookupA, ih]

theorem lookupA_setA_other {α : Type} (m : List (String × α)) (k k' : String) (v : α)
    (h : k' ≠ k) : lookupA (setA m k v) k' = lookupA m k' := by
  induction m with
  | nil => simp [setA, lookupA, h]
  | cons p rest ih =>
      obtain ⟨k₀, w⟩ := p
      by_cases h₀ : k = k₀
      · subst h₀
        simp [setA, lookupA, h]
      · by_cases h₁ : k' = k₀ <;> simp [setA, h₀, lookupA, h₁, ih]

/-! Conformance checks mirroring the unit tests. -/

example :
    MessageService.extractMentions "Hello @all" =
      [{ mentionType := .all, startIndex := 6, length := 4 }] := by
  simp [MessageService.extractMentions, MessageService.scanMentions,
    MessageService.wordChar, MessageService.classifyMention, List.takeWhile]

example :
    MessageService.extractMentions "Hi @here ping @alice and @bob" =
      [{ mentionType := .all, startIndex := 3, length := 5 },
       { mentionType := .agent, startIndex := 14, length := 6 },
       { mentionType := .agent, startIndex := 25, length := 4 }] := by
  simp [MessageService.extractMentions, MessageService.scanMentions,
    MessageService.wordChar, MessageService.classifyMention, List.takeWhile]

example :
    AuthService.checkPermissions [{ resource := "channel:*", actions := [.read, .write] }]
      "channel:general" .read = true := by decide

example :
    AuthService.checkPermissions [{ resource := "channel:*", actions := [.read, .write] }]
      "message:123" .read = false := by decide

example :
    AuthService.checkPermissions [{ resource := "channel:private", actions := [.read] },
      { resource := "channel:*", actions := [.write] }] "channel:public" .read = false := by decide

example :
    AuthService.checkPermissions [{ resource := "message:*", actions := [.read] }]
      "messages:123" .read = false := by decide

example :
    AuthService.checkPermissions [{ resource := "channel:team:*", actions := [.read] }]
      "channel:team:general" .read = true := by decide

example :
    ChannelService.checkAccess chanFixture "ch-open" "any-agent" .write = true := by decide

example :
    ChannelService.checkAccess chanFixture "ch-locked" "any-agent" .read = false := by decide

/-- C9: admin subsumption of authorize, and denial on the empty
capability set: authorize(C, r, admin) implies authorize(C, r, read) and
authorize(C, r, write), and the empty set authorizes nothing. -/
theorem authorize_admin_subsumption :
    (∀ (C : List Permission) (r : String),
        AuthService.checkPermissions C r .admin = true →
          AuthService.checkPermissions C r .read = true ∧
          AuthService.checkPermissions C r .write = true) ∧
    (∀ (r : String) (a : AccessLevel), AuthService.checkPermissions [] r a = false) := by
  constructor
  · intro C r h
    rw [AuthService.checkPermissions, List.any_eq_true] at h
    obtain ⟨p, hp, hmatch⟩ := h
    rw [Bool.and_eq_true] at hmatch
    obtain ⟨hres, hact⟩ := hmatch
    have hadmin : p.actions.contains AccessLevel.admin = true := by
      rw [AuthService.matchAction, Bool.or_eq_true] at hact
      rcases hact with h | h <;> exact h
    refine ⟨?_, ?_⟩ <;>
    · rw [AuthService.checkPermissions, List.any_eq_true]
      refine ⟨p, hp, ?_⟩
      rw [Bool.and_eq_true]
      refine ⟨hres, ?_⟩
      rw [AuthService.matchAction, Bool.or_eq_true]
      exact Or.inr hadmin
  · intro r a
    rfl

/-- Witness for C9 at a concrete admin capability and the empty set. -/
theorem authorize_admin_subsumption_witness :
    AuthService.checkPermissions [{ resource := "channel:general", actions := [.admin] }]
      "channel:general" .admin = true ∧
    AuthService.checkPermissions [{ resource := "channel:general", actions := [.admin] }]
      "channel:general" .read = true ∧
    AuthService.checkPermissions [{ resource := "channel:general", actions := [.admin] }]
      "channel:general" .write = true ∧
    AuthService.checkPermissions [] "channel:general" .read = false :=
  ⟨by decide,
   (authorize_admin_subsumption.1 _ "channel:general" (by decide)).1,
   (authorize_admin_subsumption.1 _ "channel:general" (by decide)).2,
   authorize_admin_subsumption.2 "channel:general" .read⟩

/-- C8: markDelivered advances sent to delivered only, and is a no-op on
an unknown message or a message already delivered or read; markRead sets
read unconditionally on a known message and is a no-op on an unknown one;
after markRead a markDelivered leaves the state untouched. Both
operations are total functions of the state, so they never throw. -/
theorem delivery_state_transitions :
    (∀ (s : MessageState) (id r : String), lookupA s.messages id = none →
        MessageService.markDelivered s id r = s) ∧
    (∀ (s : MessageState) (id r : String) (m : Message),
        lookupA s.messages id = some m → m.deliveryStatus = .sent →
        MessageService.markDelivered s id r =
          { s with messages := setA s.messages id { m with deliveryStatus := .delivered } }) ∧
    (∀ (s : MessageState) (id r : String) (m : Message),
        lookupA s.messages id = some m → m.deliveryStatus ≠ .sent →
        MessageService.markDelivered s id r = s) ∧
    (∀ (s : MessageState) (id r : String), lookupA s.messages id = none →
        MessageService.markRead s id r = s) ∧
    (∀ (s : MessageState) (id r : String) (m : Message),
        lookupA s.messages id = some m →
        MessageService.markRead s id r =
          { s with messages := setA s.messages id { m with deliveryStatus := .read } }) ∧
    (∀ (s : MessageState) (id r r' : String),
        MessageService.markDelivered (MessageService.markRead s id r) id r' =
          MessageService.markRead s id r) := by
  refine ⟨?_, ?_, ?_, ?_, ?_, ?_⟩
  · intro s id r h
    simp [MessageService.markDelivered, h]
  · intro s id r m h hs
    simp [MessageService.markDelivered, h, hs]
  · intro s id r m h hs
    simp [MessageService.markDelivered, h, hs]
  · intro s id r h
    simp [MessageService.markRead, h]
  · intro s id r m h
    simp [MessageService.markRead, h]
  · intro s id r r'
    cases h : lookupA s.messages id with
    | none => simp [MessageService.markRead, MessageService.markDelivered, h]
    | some m =>
        simp [MessageService.markRead, MessageService.markDelivered, h, lookupA_setA_self]

/-- Witness for C8 on a concrete one-message state. -/
theorem delivery_state_transitions_witness :
    MessageService.markDelivered msgStateOne "m0" "agent-2" =
      { msgStateOne with
        messages := setA msgStateOne.messages "m0"
          { fixtureMessage with deliveryStatus := .delivered } } ∧
    MessageService.markDelivered msgStateOne "missing" "agent-2" = msgStateOne ∧
    MessageService.markRead msgStateOne "m0" "agent-2" =
      { msgStateOne with
        messages := setA msgStateOne.messages "m0"
          { fixtureMessage with deliveryStatus := .read } } ∧
    MessageService.markDelivered (MessageService.markRead msgStateOne "m0" "agent-2")
      "m0" "agent-2" = MessageService.markRead msgStateOne "m0" "agent-2" :=
  ⟨delivery_state_transitions.2.1 msgStateOne "m0" "agent-2" fixtureMessage
      (by decide) (by decide),
   delivery_state_transitions.1 msgStateOne "missing" "agent-2" (by decide),
   delivery_state_transitions.2.2.2.2.1 msgStateOne "m0" "agent-2" fixtureMessage
      (by decide),
   delivery_state_transitions.2.2.2.2.2 msgStateOne "m0" "agent-2" "agent-2"⟩

/-- C1: when a send targets a channel through an injected ChannelService
and the write-access check on (targetId, senderId) fails, send throws
PermissionDenied and the caller keeps the unchanged state: message map,
channel index, thread index, and hence the channel message count are
untouched. -/
theorem send_channel_denied_not_stored
    (s : MessageState) (cs : ChannelState) (input : MessageSendInput)
    (senderId id : String) (now : Nat)
    (hcs : s.channelService = some cs)
    (ht : input.targetType = .channel)
    (hacc : ChannelService.checkAccess cs input.targetId senderId .write = false) :
    MessageService.send s input senderId id now = .error .permissionDenied ∧
    MessageService.resultState (MessageService.send s input senderId id now) s = s := by
  have hsend : MessageService.send s input senderId id now = .error .permissionDenied := by
    simp [MessageService.send, ht, hcs, hacc]
  exact ⟨hsend, by rw [hsend]; rfl⟩

/-- Witness for C1: a send into the locked private channel fails and
leaves the state alone. -/
theorem send_channel_denied_not_stored_witness :
    MessageService.send msgStateChecked
      { targetId := "ch-locked", targetType := .channel, msgType := none,
        text := "blocked", data := none, threadId := none, correlationId := none }
      "agent-2" "m9" 5 = .error .permissionDenied ∧
    MessageService.resultState
      (MessageService.send msgStateChecked
        { targetId := "ch-locked", targetType := .channel, msgType := none,
          text := "blocked", data := none, threadId := none, correlationId := none }
        "agent-2" "m9" 5) msgStateChecked = msgStateChecked :=
  send_channel_denied_not_stored msgStateChecked chanFixture _ "agent-2" "m9" 5
    rfl rfl (by decide)

/-- C2 counterexample: a channel created with kind direct gets
defaultAccess read, not none, and an identity matched by no rule is
granted read access rather than denied. -/
theorem createChannel_direct_defaultAccess_cex :
    (dmCreate.map fun p => (p.1.defaultAccess, p.1.accessRules)) =
      .ok (some AccessLevel.read, []) ∧
    ChannelService.checkAccess dmState "ch-dm" "mallory" .read = true := by
  constructor
  · rfl
  · decide

/-- C2 amended: createChannel derives access configuration from the kind,
with defaultAccess none only for restricted (private) channels: private
gives no rules and defaultAccess none (so every unmatched identity is
denied); direct gives no rules but defaultAccess read (so an unmatched
identity is granted read); broadcast gives exactly the rule
(everyone, read) and defaultAccess read. -/
theorem createChannel_default_rules
    (s : ChannelState) (input : ChannelCreateInput) (createdBy id : String) (now : Nat)
    (c : Channel) (s' : ChannelState)
    (h : ChannelService.create s input createdBy id now = .ok (c, s')) :
    (input.channelType = some .priv →
        c.accessRules = [] ∧ c.defaultAccess = none ∧
        ∀ agent lvl, ChannelService.checkAccess s' id agent lvl = false) ∧
    (input.channelType = some .direct →
        c.accessRules = [] ∧ c.defaultAccess = some .read ∧
        ∀ agent, ChannelService.checkAccess s' id agent .read = true) ∧
    (input.channelType = some .broadcast →
        c.accessRules = [{ principal := "*", principalType := .all, level := .read }] ∧
        c.defaultAccess = some .read) := by
  rw [ChannelService.create] at h
  split at h
  · exact absurd h (by simp)
  · rw [Except.ok.injEq, Prod.mk.injEq] at h
    obtain ⟨hc, hs⟩ := h
    subst hc
    subst hs
    refine ⟨?_, ?_, ?_⟩
    · intro hk
      refine ⟨by simp [hk, ChannelService.createDefaultAccessRules], by simp [hk], ?_⟩
      intro agent lvl
      simp [ChannelService.checkAccess, lookupA_setA_self, hk,
        ChannelService.createDefaultAccessRules]
    · intro hk
      refine ⟨by simp [hk, ChannelService.createDefaultAccessRules], by simp [hk], ?_⟩
      intro agent
      simp [ChannelService.checkAccess, lookupA_setA_self, hk,
        ChannelService.createDefaultAccessRules, accessLevelSatisfies, levelIndex]
    · intro hk
      exact ⟨by simp [hk, ChannelService.createDefaultAccessRules], by simp [hk]⟩

/-- Witness for C2 amended, on the concrete direct-channel create. -/
theorem createChannel_default_rules_witness :
    dmChannel.accessRules = [] ∧ dmChannel.defaultAccess = some .read ∧
    ChannelService.checkAccess dmState "ch-dm" "mallory" AccessLevel.read = true := by
  have h : ChannelService.create (ChannelState.empty "proj-123") dmInput
      "alice" "ch-dm" 0 = .ok (dmChannel, dmState) := rfl
  have hd := (createChannel_default_rules (ChannelState.empty "proj-123") dmInput
    "alice" "ch-dm" 0 dmChannel dmState h).2.1 rfl
  exact ⟨hd.1, hd.2.1, hd.2.2 "mallory"⟩

/-- C10: a send whose target kind is agent or broadcast performs no access
check at all: for every state (hence for every capability configuration of
the sender) it succeeds, stores the message under its id, leaves the
channel index alone, indexes by thread when a nonempty thread id is given,
and dispatches by target kind when a relay client is wired. -/
theorem send_agent_broadcast_unchecked
    (s : MessageState) (input : MessageSendInput) (senderId id : String) (now : Nat)
    (h : input.targetType = .agent ∨ input.targetType = .broadcast) :
    ∃ m s', MessageService.send s input senderId id now = .ok (m, s') ∧
      lookupA s'.messages id = some m ∧
      s'.channelMessages = s.channelMessages ∧
      (∀ tid, input.threadId = some tid → tid ≠ "" →
        lookupA s'.threadMessages tid =
          some ((lookupA s.threadMessages tid).getD [] ++ [id])) ∧
      (s.relayWired = true →
        s'.dispatched = s.dispatched ++
          [if input.targetType = .agent then DispatchEvent.toAgent input.targetId id
           else DispatchEvent.broadcastAll id]) := by
  rcases h with h | h <;>
  · have hsend : MessageService.send s input senderId id now =
        .ok (MessageService.sendStore s input senderId id now) := by
      simp [MessageService.send, h]
    refine ⟨(MessageService.sendStore s input senderId id now).1,
      (MessageService.sendStore s input senderId id now).2,
      by rw [hsend], ?_, ?_, ?_, ?_⟩
    · simp [MessageService.sendStore, lookupA_setA_self]
    · simp [MessageService.sendStore, h]
    · intro tid htid hne
      simp [MessageService.sendStore, htid, hne, MessageService.indexPush,
        lookupA_setA_self]
    · intro hw
      simp [MessageService.sendStore, MessageService.broadcastEvents, h, hw]

/-- Witness for C10: a concrete direct message is accepted and stored. -/
theorem send_agent_broadcast_unchecked_witness :
    (MessageService.send msgStateChecked agentPing "agent-1" "mA" 5).isOk = true ∧
    (lookupA (stepSend msgStateChecked agentPing "agent-1" "mA" 5).messages "mA").isSome
      = true := by
  obtain ⟨m, s', hok, hst, -, -, -⟩ :=
    send_agent_broadcast_unchecked msgStateChecked agentPing "agent-1" "mA" 5
      (Or.inl rfl)
  constructor
  · rw [hok]
    rfl
  · rw [stepSend, hok, MessageService.resultState, hst]
    rfl

theorem find?_append_first {α : Type} (p : α → Bool) (pre : List α) (x : α)
    (post : List α) (hpre : ∀ r ∈ pre, p r = false) (hx : p x = true) :
    (pre ++ x :: post).find? p = some x := by
  induction pre with
  | nil => simp [List.find?_cons_of_pos, hx]
  | cons a as ih =>
      have ha : p a = false := hpre a (List.mem_cons_self a as)
      rw [List.cons_append, List.find?_cons_of_neg _ (by simp [ha])]
      exact ih (fun r hr => hpre r (List.mem_cons_of_mem a hr))

/-- C3: checkAccess implements the access-resolution order. On an existing
channel, the first rule in the ordered rule list whose principal matches
the identity decides the result via level satisfaction; if no rule
matches, defaultAccess decides on the same satisfaction relation, and a
missing (none) defaultAccess denies. Satisfaction agrees with the spec
wording: actual satisfies required iff required equals actual or required
is below actual in the chain read < write < admin. -/
theorem checkAccess_resolution_order :
    (∀ (s : ChannelState) (channelId agentId : String) (required : AccessLevel)
        (channel : Channel), lookupA s.channels channelId = some channel →
      (∀ pre rule post, channel.accessRules = pre ++ rule :: post →
          (∀ r ∈ pre, ChannelService.matchRule r agentId = false) →
          ChannelService.matchRule rule agentId = true →
          ChannelService.checkAccess s channelId agentId required =
            accessLevelSatisfies rule.level required) ∧
      ((∀ r ∈ channel.accessRules, ChannelService.matchRule r agentId = false) →
        (channel.defaultAccess = none →
            ChannelService.checkAccess s channelId agentId required = false) ∧
        (∀ lvl, channel.defaultAccess = some lvl →
            ChannelService.checkAccess s channelId agentId required =
              accessLevelSatisfies lvl required))) ∧
    (∀ actual required : AccessLevel,
        accessLevelSatisfies actual required =
          (decide (required = actual) || levelLT required actual)) := by
  constructor
  · intro s channelId agentId required channel hch
    constructor
    · intro pre rule post hrules hpre hrule
      simp only [ChannelService.checkAccess, hch]
      rw [hrules, find?_append_first _ pre rule post hpre hrule]
    · intro hnone
      have hfind : channel.accessRules.find?
          (fun r => ChannelService.matchRule r agentId) = none := by
        rw [List.find?_eq_none]
        intro r hr
        simp [hnone r hr]
      constructor
      · intro hdef
        simp only [ChannelService.checkAccess, hch]
        rw [hfind, hdef]
      · intro lvl hdef
        simp only [ChannelService.checkAccess, hch]
        rw [hfind, hdef]
  · intro actual required
    cases actual <;> cases required <;> decide

/-- Witness for C3 on the open channel of the fixture: its everyone-write
rule is first and decides a write request by any agent. -/
theorem checkAccess_resolution_order_witness :
    ChannelService.checkAccess chanFixture "ch-open" "agent-2" .write =
      accessLevelSatisfies .write .write ∧
    accessLevelSatisfies AccessLevel.write AccessLevel.write =
      (decide (AccessLevel.write = AccessLevel.write) ||
        levelLT AccessLevel.write AccessLevel.write) :=
  ⟨(checkAccess_resolution_order.1 chanFixture "ch-open" "agent-2" .write
      openChannel (by decide)).1 []
      { principal := "*", principalType := .all, level := .write } [] (by decide)
      (by intro r hr; simp at hr) (by decide),
   checkAccess_resolution_order.2 .write .write⟩

theorem checkAccess_update (s : ChannelState) (ch : String) (c : Channel)
    (hc : lookupA s.channels ch = some c) :
    ∀ (n : Nat) (mems : List (String × List String)) (agent : String)
      (lvl : AccessLevel),
      ChannelService.checkAccess
        { s with channels := setA s.channels ch { c with memberCount := n },
                 memberships := mems } ch agent lvl =
      ChannelService.checkAccess s ch agent lvl := by
  intro n mems agent lvl
  simp [ChannelService.checkAccess, lookupA_setA_self, hc]

/-- C7: join and leave are idempotent and keep memberCount equal to the
size of the membership set. A second join of the same pair is a no-op that
still returns true; leave of a non-member returns true and changes
nothing; and both operations preserve the count-equals-size invariant of
the touched channel. -/
theorem join_leave_idempotent_memberCount :
    (∀ (s : ChannelState) (ch a : String) (s₁ : ChannelState),
        ChannelService.join s ch a = .ok (true, s₁) →
        ChannelService.join s₁ ch a = .ok (true, s₁)) ∧
    (∀ (s : ChannelState) (ch a : String) (c : Channel) (mem : List String),
        lookupA s.channels ch = some c → lookupA s.memberships ch = some mem →
        a ∉ mem → ChannelService.leave s ch a = .ok (true, s)) ∧
    (∀ (s : ChannelState) (ch a : String) (b : Bool) (s' : ChannelState),
        ChannelService.join s ch a = .ok (b, s') →
        ∀ (c : Channel) (mem : List String),
          lookupA s.channels ch = some c → lookupA s.memberships ch = some mem →
          c.memberCount = mem.length →
          ∀ (c' : Channel) (mem' : List String),
            lookupA s'.channels ch = some c' →
            lookupA s'.memberships ch = some mem' →
            c'.memberCount = mem'.length) ∧
    (∀ (s : ChannelState) (ch a : String) (b : Bool) (s' : ChannelState),
        ChannelService.leave s ch a = .ok (b, s') →
        ∀ (c : Channel) (mem : List String),
          lookupA s.channels ch = some c → lookupA s.memberships ch = some mem →
          c.memberCount = mem.length →
          ∀ (c' : Channel) (mem' : List String),
            lookupA s'.channels ch = some c' →
            lookupA s'.memberships ch = some mem' →
            c'.memberCount = mem'.length) := by
  refine ⟨?_, ?_, ?_, ?_⟩
  · intro s ch a s₁ hok
    cases hch : lookupA s.channels ch with
    | none => simp [ChannelService.join, hch] at hok
    | some channel =>
        by_cases hacc : ChannelService.checkAccess s ch a .read = true
        · cases hmem : lookupA s.memberships ch with
          | none => simp [ChannelService.join, hch, hacc, hmem] at hok
          | some members =>
              by_cases hin : a ∈ members
              · simp [ChannelService.join, hch, hacc, hmem, hin] at hok
                subst hok
                simp [ChannelService.join, hch, hacc, hmem, hin]
              · simp [ChannelService.join, hch, hacc, hmem, hin] at hok
                subst hok
                simp [ChannelService.join, lookupA_setA_self,
                  checkAccess_update s ch channel hch, hacc]
        · simp [ChannelService.join, hch, hacc] at hok
  · intro s ch a c mem hc hmem hnotin
    simp [ChannelService.leave, hc, hmem, hnotin]
  · intro s ch a b s' hok c mem hc hmem hcount c' mem' hc' hmem'
    by_cases hacc : ChannelService.checkAccess s ch a .read = true
    · by_cases hin : a ∈ mem
      · simp [ChannelService.join, hc, hacc, hmem, hin] at hok
        obtain ⟨-, hs⟩ := hok
        subst hs
        rw [hc, Option.some.injEq] at hc'
        rw [hmem, Option.some.injEq] at hmem'
        subst hc'
        subst hmem'
        exact hcount
      · simp [ChannelService.join, hc, hacc, hmem, hin] at hok
        obtain ⟨-, hs⟩ := hok
        subst hs
        simp only [lookupA_setA_self, Option.some.injEq] at hc' hmem'
        subst hc'
        subst hmem'
        simp
    · simp [ChannelService.join, hc, hacc] at hok
  · intro s ch a b s' hok c mem hc hmem hcount c' mem' hc' hmem'
    by_cases hin : a ∈ mem
    · simp [ChannelService.leave, hc, hmem, hin] at hok
      obtain ⟨-, hs⟩ := hok
      subst hs
      simp only [lookupA_setA_self, Option.some.injEq] at hc' hmem'
      subst hc'
      subst hmem'
      simp
    · simp [ChannelService.leave, hc, hmem, hin] at hok
      obtain ⟨-, hs⟩ := hok
      subst hs
      rw [hc, Option.some.injEq] at hc'
      rw [hmem, Option.some.injEq] at hmem'
      subst hc'
      subst hmem'
      exact hcount

/-- Witness for C7: a second join of agent-2 into the open channel is a
no-op that still reports success, and a non-member leave changes nothing. -/
theorem join_leave_idempotent_memberCount_witness :
    ChannelService.join joinedState "ch-open" "agent-2" = .ok (true, joinedState) ∧
    ChannelService.leave chanFixture "ch-open" "agent-3" = .ok (true, chanFixture) :=
  ⟨join_leave_idempotent_memberCount.1 chanFixture "ch-open" "agent-2" joinedState rfl,
   join_leave_idempotent_memberCount.2.1 chanFixture "ch-open" "agent-3" openChannel []
     (by decide) (by decide) (by simp)⟩

theorem insertDesc_perm (m : Message) (l : List Message) :
    (MessageService.insertDesc m l).Perm (m :: l) := by
  induction l with
  | nil => exact List.Perm.refl _
  | cons x xs ih =>
      rw [MessageService.insertDesc]
      by_cases h : x.sentAt < m.sentAt
      · rw [if_pos h]
      · rw [if_neg h]
        exact (ih.cons x).trans (List.Perm.swap m x xs)

theorem sortDesc_perm (l : List Message) : (MessageService.sortDesc l).Perm l := by
  induction l with
  | nil => exact List.Perm.refl _
  | cons x xs ih =>
      rw [MessageService.sortDesc]
      exact (insertDesc_perm x _).trans (ih.cons x)

theorem insertDesc_pairwise (m : Message) (l : List Message)
    (h : List.Pairwise (fun a b => b.sentAt ≤ a.sentAt) l) :
    List.Pairwise (fun a b => b.sentAt ≤ a.sentAt) (MessageService.insertDesc m l) := by
  induction l with
  | nil => simp [MessageService.insertDesc]
  | cons x xs ih =>
      rw [List.pairwise_cons] at h
      obtain ⟨h1, h2⟩ := h
      rw [MessageService.insertDesc]
      by_cases hx : x.sentAt < m.sentAt
      · rw [if_pos hx, List.pairwise_cons]
        refine ⟨?_, ?_⟩
        · intro y hy
          rcases List.mem_cons.mp hy with hy | hy
          · exact hy ▸ le_of_lt hx
          · exact (h1 y hy).trans (le_of_lt hx)
        · exact List.pairwise_cons.mpr ⟨h1, h2⟩
      · rw [if_neg hx, List.pairwise_cons]
        refine ⟨?_, ih h2⟩
        intro y hy
        rcases List.mem_cons.mp ((insertDesc_perm m xs).mem_iff.mp hy) with hy | hy
        · exact hy ▸ le_of_not_lt hx
        · exact h1 y hy

theorem sortDesc_pairwise (l : List Message) :
    List.Pairwise (fun a b => b.sentAt ≤ a.sentAt) (MessageService.sortDesc l) := by
  induction l with
  | nil => simp [MessageService.sortDesc]
  | cons x xs ih =>
      rw [MessageService.sortDesc]
      exact insertDesc_pairwise x _ ih

/-- C4: getChannelMessages returns at most limit messages, ordered newest
first by sentAt, all non-soft-deleted; an unresolvable (unknown, nonempty)
beforeId is treated as no cursor; and on the concrete channel with
messages at instants 1 < 2 < 3 it returns [m3, m2, m1], with limit 1 just
[m3], with the cursor at m2 just [m1], and after soft-deleting m2 it
returns [m3, m1]. -/
theorem getChannelMessages_ordering_spec :
    (∀ (s : MessageState) (ch : String) (limit : Nat) (before : Option String),
        (MessageService.getChannelMessages s ch limit before).length ≤ limit) ∧
    (∀ (s : MessageState) (ch : String) (limit : Nat) (before : Option String),
        List.Pairwise (fun a b => b.sentAt ≤ a.sentAt)
          (MessageService.getChannelMessages s ch limit before)) ∧
    (∀ (s : MessageState) (ch : String) (limit : Nat) (before : Option String),
        (MessageService.getChannelMessages s ch limit before).all
          (fun m => m.deletedAt == none) = true) ∧
    (∀ (s : MessageState) (ch : String) (limit : Nat) (b : String), b ≠ "" →
        lookupA s.messages b = none →
        MessageService.getChannelMessages s ch limit (some b) =
          MessageService.getChannelMessages s ch limit none) ∧
    ((MessageService.getChannelMessages threeSent "ch-1" 50 none).map Message.id =
        ["m3", "m2", "m1"] ∧
      (MessageService.getChannelMessages threeSent "ch-1" 1 none).map Message.id =
        ["m3"] ∧
      (MessageService.getChannelMessages threeSent "ch-1" 50 (some "m2")).map Message.id =
        ["m1"] ∧
      (MessageService.getChannelMessages threeSentDel "ch-1" 50 none).map Message.id =
        ["m3", "m1"]) := by
  have hsub : ∀ (s : MessageState) (ch : String) (limit : Nat) (before : Option String),
      (MessageService.getChannelMessages s ch limit before).Sublist
        (MessageService.sortDesc
          ((((lookupA s.channelMessages ch).getD []).filterMap
              (fun id => lookupA s.messages id)).filter (fun m => m.deletedAt = none))) := by
    intro s ch limit before
    rw [MessageService.getChannelMessages.eq_def]
    cases before with
    | none => exact List.take_sublist _ _
    | some b =>
        by_cases hb : b = ""
        · simp only [hb, if_pos rfl]
          exact List.take_sublist _ _
        · simp only [if_neg hb]
          cases lookupA s.messages b with
          | none => exact List.take_sublist _ _
          | some bm =>
              exact (List.take_sublist _ _).trans (List.filter_sublist _)
  refine ⟨?_, ?_, ?_, ?_, ?_⟩
  · intro s ch limit before
    rw [MessageService.getChannelMessages.eq_def]
    cases before with
    | none => exact List.length_take_le _ _
    | some b =>
        by_cases hb : b = ""
        · simp only [hb, if_pos rfl]
          exact List.length_take_le _ _
        · simp only [if_neg hb]
          cases lookupA s.messages b with
          | none => exact List.length_take_le _ _
          | some bm => exact List.length_take_le _ _
  · intro s ch limit before
    exact List.Pairwise.sublist (hsub s ch limit before) (sortDesc_pairwise _)
  · intro s ch limit before
    rw [List.all_eq_true]
    intro m hm
    have hm' := (hsub s ch limit before).subset hm
    have hm'' := (sortDesc_perm _).subset hm'
    rw [List.mem_filter] at hm''
    simpa using hm''.2
  · intro s ch limit b hb hlook
    simp [MessageService.getChannelMessages, hb, hlook]
  · refine ⟨?_, ?_, ?_, ?_⟩ <;>
    · simp [threeSent, threeSentDel, stepSend, chInput, msgState0,
        MessageService.resultState, MessageService.send, MessageService.sendStore,
        MessageService.delete, MessageService.extractMentions,
        MessageService.scanMentions, MessageService.wordChar,
        MessageService.classifyMention, MessageService.broadcastEvents,
        MessageService.indexPush, MessageService.getChannelMessages,
        MessageService.sortDesc, MessageService.insertDesc,
        MessageService.signMessage, lookupA, setA, List.takeWhile]

/-- Witness for C4: an unknown cursor id on the concrete channel behaves
as no cursor. -/
theorem getChannelMessages_ordering_spec_witness :
    MessageService.getChannelMessages threeSent "ch-1" 50 (some "zzz") =
      MessageService.getChannelMessages threeSent "ch-1" 50 none :=
  getChannelMessages_ordering_spec.2.2.2.1 threeSent "ch-1" 50 "zzz" (by decide)
    (by simp [threeSent, stepSend, chInput, msgState0, MessageService.resultState,
      MessageService.send, MessageService.sendStore, MessageService.extractMentions,
      MessageService.scanMentions, MessageService.wordChar,
      MessageService.classifyMention, MessageService.broadcastEvents,
      MessageService.indexPush, MessageService.signMessage, lookupA, setA,
      List.takeWhile])

theorem send_ok_eq (s : MessageState) (input : MessageSendInput) (senderId id : String)
    (now : Nat) (m : Message) (s' : MessageState)
    (h : MessageService.send s input senderId id now = .ok (m, s')) :
    m = (MessageService.sendStore s input senderId id now).1 ∧
    s' = (MessageService.sendStore s input senderId id now).2 := by
  cases ht : input.targetType with
  | channel =>
      cases hcs : s.channelService with
      | none =>
          simp only [MessageService.send, ht, hcs, Except.ok.injEq] at h
          exact ⟨congrArg Prod.fst h.symm, congrArg Prod.snd h.symm⟩
      | some cs =>
          by_cases hacc : ChannelService.checkAccess cs input.targetId senderId .write = true
          · simp only [MessageService.send, ht, hcs, hacc, if_true, Except.ok.injEq] at h
            exact ⟨congrArg Prod.fst h.symm, congrArg Prod.snd h.symm⟩
          · simp [MessageService.send, ht, hcs, hacc] at h
  | agent =>
      simp only [MessageService.send, ht, Except.ok.injEq] at h
      exact ⟨congrArg Prod.fst h.symm, congrArg Prod.snd h.symm⟩
  | broadcast =>
      simp only [MessageService.send, ht, Except.ok.injEq] at h
      exact ⟨congrArg Prod.fst h.symm, congrArg Prod.snd h.symm⟩

theorem edit_ok (s0 : MessageState) (mid newText editor : String) (now' : Nat)
    (message : Message) (hl : lookupA s0.messages mid = some message)
    (hsender : message.senderId = editor) :
    MessageService.edit s0 mid newText editor now' = .ok (true,
      { s0 with
        messages := setA s0.messages mid
          { message with
            content := { message.content with text := newText }
            editedAt := some now'
            signature := MessageService.signMessage s0.signingKey message.id
              message.senderId { message.content with text := newText } message.sentAt }
        dispatched := s0.dispatched ++
          (if s0.relayWired then
            [.relayEvent editor message.targetId mid "edited"] else []) }) := by
  simp [MessageService.edit, hl, hsender]

/-- C5: immediately after send verifySignature accepts the stored record;
mutating contentText directly on the record makes verifySignature reject
it; and after a text-changing edit by the sender, editedAt is set, the
signature differs from the original, and verifySignature accepts the
edited record. -/
theorem signature_roundtrip :
    ∀ (s : MessageState) (input : MessageSendInput) (senderId id : String) (now : Nat)
      (m : Message) (s' : MessageState),
      MessageService.send s input senderId id now = .ok (m, s') →
      MessageService.verifySignature s' m = true ∧
      (∀ t : String, t ≠ input.text →
        MessageService.verifySignature s'
          { m with content := { m.content with text := t } } = false) ∧
      (∀ (newText : String) (now' : Nat), newText ≠ input.text →
        ∃ s'' : MessageState,
          MessageService.edit s' m.id newText senderId now' = .ok (true, s'') ∧
          ∃ m'' : Message, lookupA s''.messages m.id = some m'' ∧
            m''.editedAt = some now' ∧ m''.signature ≠ m.signature ∧
            MessageService.verifySignature s'' m'' = true) := by
  intro s input senderId id now m s' h
  obtain ⟨hm, hs⟩ := send_ok_eq s input senderId id now m s' h
  subst hm
  subst hs
  refine ⟨?_, ?_, ?_⟩
  · simp [MessageService.verifySignature, MessageService.sendStore,
      MessageService.signMessage]
  · intro t ht
    simp [MessageService.verifySignature, MessageService.sendStore,
      MessageService.signMessage, ht]
    exact fun hx => ht hx.symm
  · intro newText now' hnew
    have hl : lookupA (MessageService.sendStore s input senderId id now).2.messages
        (MessageService.sendStore s input senderId id now).1.id =
        some (MessageService.sendStore s input senderId id now).1 := by
      simp [MessageService.sendStore, lookupA_setA_self]
    have hsender : (MessageService.sendStore s input senderId id now).1.senderId
        = senderId := by
      simp [MessageService.sendStore]
    refine ⟨_, edit_ok _ _ newText senderId now' _ hl hsender, ?_⟩
    refine ⟨_, lookupA_setA_self _ _ _, ?_, ?_, ?_⟩
    · rfl
    · simp [MessageService.sendStore, MessageService.signMessage, hnew]
    · simp [MessageService.verifySignature, MessageService.sendStore,
        MessageService.signMessage]

/-- Witness for C5 on a concrete send of hello: the stored record
verifies, a direct tamper of the text fails verification, and a
text-changing edit by the sender succeeds. -/
theorem signature_roundtrip_witness :
    MessageService.verifySignature
      (MessageService.sendStore msgState0 (chInput "hello") "agent-1" "mX" 10).2
      (MessageService.sendStore msgState0 (chInput "hello") "agent-1" "mX" 10).1 = true ∧
    MessageService.verifySignature
      (MessageService.sendStore msgState0 (chInput "hello") "agent-1" "mX" 10).2
      { (MessageService.sendStore msgState0 (chInput "hello") "agent-1" "mX" 10).1 with
        content :=
          { (MessageService.sendStore msgState0 (chInput "hello") "agent-1" "mX" 10).1.content
            with text := "tampered" } } = false ∧
    (MessageService.edit
      (MessageService.sendStore msgState0 (chInput "hello") "agent-1" "mX" 10).2
      "mX" "updated" "agent-1" 11).isOk = true := by
  have h := signature_roundtrip msgState0 (chInput "hello") "agent-1" "mX" 10
    (MessageService.sendStore msgState0 (chInput "hello") "agent-1" "mX" 10).1
    (MessageService.sendStore msgState0 (chInput "hello") "agent-1" "mX" 10).2 rfl
  refine ⟨h.1, h.2.1 "tampered" (by decide), ?_⟩
  obtain ⟨s'', hedit, -⟩ := h.2.2 "updated" 11 (by decide)
  have h2 : MessageService.edit
      (MessageService.sendStore msgState0 (chInput "hello") "agent-1" "mX" 10).2
      "mX" "updated" "agent-1" 11 = .ok (true, s'') := hedit
  rw [h2]
  rfl

theorem takeWhile_get? {p : Char → Bool} :
    ∀ (l : List Char) (j : Nat) (a : Char),
      (l.takeWhile p).get? j = some a → l.get? j = some a ∧ p a = true := by
  intro l
  induction l with
  | nil => intro j a h; simp [List.takeWhile] at h
  | cons x xs ih =>
      intro j a h
      cases hp : p x with
      | false => rw [List.takeWhile_cons_of_neg (by simp [hp])] at h; simp at h
      | true =>
          rw [List.takeWhile_cons_of_pos (by simp [hp])] at h
          cases j with
          | zero =>
              rw [List.get?_cons_zero, Option.some.injEq] at h
              subst h
              exact ⟨rfl, hp⟩
          | succ j' =>
              rw [List.get?_cons_succ] at h
              exact ⟨(ih j' a h).1, (ih j' a h).2⟩

theorem dropWhile_head? {p : Char → Bool} :
    ∀ (l : List Char) (c : Char), (l.dropWhile p).head? = some c → p c = false := by
  intro l
  induction l with
  | nil => intro c h; simp [List.dropWhile] at h
  | cons x xs ih =>
      intro c h
      cases hp : p x with
      | true => rw [List.dropWhile_cons_of_pos (by simp [hp])] at h; exact ih c h
      | false =>
          rw [List.dropWhile_cons_of_neg (by simp [hp])] at h
          rw [List.head?_cons, Option.some.injEq] at h
          subst h
          exact hp

theorem drop_length_takeWhile {p : Char → Bool} :
    ∀ (l : List Char), l.drop (l.takeWhile p).length = l.dropWhile p := by
  intro l
  induction l with
  | nil => rfl
  | cons x xs ih =>
      cases hp : p x with
      | true =>
          rw [List.takeWhile_cons_of_pos (by simp [hp]),
            List.dropWhile_cons_of_pos (by simp [hp]), List.length_cons,
            List.drop_succ_cons]
          exact ih
      | false =>
          rw [List.takeWhile_cons_of_neg (by simp [hp]),
            List.dropWhile_cons_of_neg (by simp [hp])]
          rfl

theorem get?_append_cons {α : Type} (pre : List α) (x : α) (rest : List α) :
    (pre ++ x :: rest).get? pre.length = some x := by
  induction pre with
  | nil => rfl
  | cons a as ih => simpa using ih

theorem scanMentions_sound :
    ∀ (l : List Char) (i : Nat) (m : Mention), m ∈ MessageService.scanMentions l i →
      ∃ pre w post, l = pre ++ '@' :: (w ++ post) ∧
        m.startIndex = i + pre.length ∧ w ≠ [] ∧
        (∀ c ∈ w, MessageService.wordChar c = true) ∧
        (∀ c, post.head? = some c → MessageService.wordChar c = false) ∧
        m.length = w.length + 1 ∧ m.mentionType = MessageService.classifyMention w := by
  intro l i
  induction l, i using MessageService.scanMentions.induct with
  | case1 i =>
      intro m hm
      simp [MessageService.scanMentions] at hm
  | case2 rest i w hw ih =>
      intro m hm
      have hm' : m ∈ MessageService.scanMentions rest (i + 1) := by
        rw [MessageService.scanMentions] at hm
        simpa [show List.takeWhile MessageService.wordChar rest = [] from hw] using hm
      obtain ⟨pre, w', post, hl, hst, hne, hwc, hpost, hlen, hty⟩ := ih m hm'
      refine ⟨'@' :: pre, w', post, ?_, ?_, hne, hwc, hpost, hlen, hty⟩
      · rw [hl]
        rfl
      · rw [hst]
        simp
        omega
  | case3 rest i w hw ih =>
      intro m hm
      have hm' : m ∈ Mention.mk (MessageService.classifyMention w) i (w.length + 1) ::
          MessageService.scanMentions (rest.drop w.length) (i + 1 + w.length) := by
        rw [MessageService.scanMentions] at hm
        simpa [show ¬ List.takeWhile MessageService.wordChar rest = [] from hw] using hm
      rcases List.mem_cons.mp hm' with hm₀ | hmtail
      · refine ⟨[], List.takeWhile MessageService.wordChar rest,
          rest.dropWhile MessageService.wordChar, ?_, ?_, hw, ?_, ?_, ?_, ?_⟩
        · rw [List.nil_append, List.takeWhile_append_dropWhile]
        · simp [hm₀]
        · intro c hc
          exact List.mem_takeWhile_imp hc
        · intro c hc
          exact dropWhile_head? _ c hc
        · simp [hm₀]
        · simp [hm₀]
      · obtain ⟨pre, w', post, hl, hst, hne, hwc, hpost, hlen, hty⟩ := ih m hmtail
        rw [drop_length_takeWhile] at hl
        refine ⟨'@' :: (List.takeWhile MessageService.wordChar rest ++ pre), w', post,
          ?_, ?_, hne, hwc, hpost, hlen, hty⟩
        · rw [List.cons_append, List.append_assoc]
          rw [← hl, List.takeWhile_append_dropWhile]
        · rw [hst]
          simp only [show w = List.takeWhile MessageService.wordChar rest from rfl,
            List.length_cons, List.length_append]
          omega
  | case4 c rest i hc ih =>
      intro m hm
      have hm' : m ∈ MessageService.scanMentions rest (i + 1) := by
        rw [MessageService.scanMentions] at hm
        simpa [hc] using hm
      obtain ⟨pre, w', post, hl, hst, hne, hwc, hpost, hlen, hty⟩ := ih m hm'
      refine ⟨c :: pre, w', post, ?_, ?_, hne, hwc, hpost, hlen, hty⟩
      · rw [hl]
        rfl
      · rw [hst]
        simp
        omega

theorem scanMentions_lb (l : List Char) (i : Nat) (m : Mention)
    (hm : m ∈ MessageService.scanMentions l i) : i ≤ m.startIndex := by
  obtain ⟨pre, w, post, -, hst, -⟩ := scanMentions_sound l i m hm
  omega

theorem scanMentions_ordered :
    ∀ (l : List Char) (i : Nat),
      List.Pairwise (fun a b => a.startIndex < b.startIndex)
        (MessageService.scanMentions l i) := by
  intro l i
  induction l, i using MessageService.scanMentions.induct with
  | case1 i => simp [MessageService.scanMentions]
  | case2 rest i w hw ih =>
      have hrw : MessageService.scanMentions ('@' :: rest) i =
          MessageService.scanMentions rest (i + 1) := by
        rw [MessageService.scanMentions]
        simp [show List.takeWhile MessageService.wordChar rest = [] from hw]
      rw [hrw]
      exact ih
  | case3 rest i w hw ih =>
      have hrw : MessageService.scanMentions ('@' :: rest) i =
          Mention.mk (MessageService.classifyMention
              (List.takeWhile MessageService.wordChar rest)) i
            ((List.takeWhile MessageService.wordChar rest).length + 1) ::
          MessageService.scanMentions
            (rest.drop (List.takeWhile MessageService.wordChar rest).length)
            (i + 1 + (List.takeWhile MessageService.wordChar rest).length) := by
        rw [MessageService.scanMentions]
        simp [show ¬ List.takeWhile MessageService.wordChar rest = [] from hw]
      rw [hrw]
      rw [List.pairwise_cons]
      refine ⟨?_, ih⟩
      intro b hb
      have hlb := scanMentions_lb _ _ b hb
      simp only [Mention.mk] at hlb ⊢
      omega
  | case4 c rest i hc ih =>
      have hrw : MessageService.scanMentions (c :: rest) i =
          MessageService.scanMentions rest (i + 1) := by
        rw [MessageService.scanMentions]
        simp [hc]
      rw [hrw]
      exact ih

theorem takeWhile_ne_nil_of_head {p : Char → Bool} (l : List Char) (c : Char)
    (h : l.get? 0 = some c) (hc : p c = true) : l.takeWhile p ≠ [] := by
  cases l with
  | nil => simp at h
  | cons x xs =>
      rw [List.get?_cons_zero, Option.some.injEq] at h
      subst h
      rw [List.takeWhile_cons_of_pos (by simp [hc])]
      simp

theorem scanMentions_complete :
    ∀ (l : List Char) (i : Nat) (j : Nat) (c : Char),
      l.get? j = some '@' → l.get? (j + 1) = some c →
      MessageService.wordChar c = true →
      ∃ m ∈ MessageService.scanMentions l i, m.startIndex = i + j := by
  intro l i
  induction l, i using MessageService.scanMentions.induct with
  | case1 i =>
      intro j c h1 h2 h3
      simp at h1
  | case2 rest i w hw ih =>
      intro j c h1 h2 h3
      have hw' : List.takeWhile MessageService.wordChar rest = [] := hw
      have hrw : MessageService.scanMentions ('@' :: rest) i =
          MessageService.scanMentions rest (i + 1) := by
        rw [MessageService.scanMentions]
        simp [hw']
      cases j with
      | zero =>
          rw [List.get?_cons_succ] at h2
          exact absurd hw' (takeWhile_ne_nil_of_head rest c h2 h3)
      | succ j' =>
          rw [List.get?_cons_succ] at h1 h2
          obtain ⟨m, hm, hst⟩ := ih j' c h1 h2 h3
          refine ⟨m, by rw [hrw]; exact hm, by omega⟩
  | case3 rest i w hw ih =>
      intro j c h1 h2 h3
      have hw' : ¬ List.takeWhile MessageService.wordChar rest = [] := hw
      have hrw : MessageService.scanMentions ('@' :: rest) i =
          Mention.mk (MessageService.classifyMention
              (List.takeWhile MessageService.wordChar rest)) i
            ((List.takeWhile MessageService.wordChar rest).length + 1) ::
          MessageService.scanMentions
            (rest.drop (List.takeWhile MessageService.wordChar rest).length)
            (i + 1 + (List.takeWhile MessageService.wordChar rest).length) := by
        rw [MessageService.scanMentions]
        simp [hw']
      cases j with
      | zero =>
          refine ⟨Mention.mk (MessageService.classifyMention
              (List.takeWhile MessageService.wordChar rest)) i
            ((List.takeWhile MessageService.wordChar rest).length + 1), ?_, ?_⟩
          · rw [hrw]
            exact List.mem_cons_self _ _
          · simp
      | succ j' =>
          rw [List.get?_cons_succ] at h1 h2
          by_cases hj : j' < (List.takeWhile MessageService.wordChar rest).length
          · exfalso
            have hsome := List.get?_eq_get hj
            obtain ⟨hga, hpa⟩ := takeWhile_get? rest j' _ hsome
            rw [h1, Option.some.injEq] at hga
            rw [← hga] at hpa
            exact absurd hpa (by decide)
          · have hj' : (List.takeWhile MessageService.wordChar rest).length ≤ j' := le_of_not_lt hj
            have hd1 : (rest.drop (List.takeWhile MessageService.wordChar rest).length).get?
                (j' - (List.takeWhile MessageService.wordChar rest).length) = some '@' := by
              rw [List.get?_drop]
              rw [Nat.add_sub_cancel' hj']
              exact h1
            have hd2 : (rest.drop (List.takeWhile MessageService.wordChar rest).length).get?
                (j' - (List.takeWhile MessageService.wordChar rest).length + 1) = some c := by
              rw [List.get?_drop]
              rw [show (List.takeWhile MessageService.wordChar rest).length +
                (j' - (List.takeWhile MessageService.wordChar rest).length + 1) = j' + 1 by omega]
              exact h2
            obtain ⟨m, hm, hst⟩ := ih _ c hd1 hd2 h3
            refine ⟨m, by rw [hrw]; exact List.mem_cons_of_mem _ hm, ?_⟩
            have hw2 : w.length = (List.takeWhile MessageService.wordChar rest).length := rfl
            rw [hw2] at hst
            omega
  | case4 c₀ rest i hc ih =>
      intro j c h1 h2 h3
      have hrw : MessageService.scanMentions (c₀ :: rest) i =
          MessageService.scanMentions rest (i + 1) := by
        rw [MessageService.scanMentions]
        simp [hc]
      cases j with
      | zero =>
          rw [List.get?_cons_zero, Option.some.injEq] at h1
          exact absurd h1 hc
      | succ j' =>
          rw [List.get?_cons_succ] at h1 h2
          obtain ⟨m, hm, hst⟩ := ih j' c h1 h2 h3
          refine ⟨m, by rw [hrw]; exact hm, by omega⟩

/-- C6: every recorded mention of a text corresponds to an @ character
followed by a maximal nonempty run of word characters, with startOffset at
the @ and length covering the whole token, classified all for the tokens
all and here and agent otherwise; the mentions appear in source order;
every such token in the text is recorded; and the text Hello @all yields
exactly one everyone mention at offset 6 with length 4. -/
theorem extractMentions_spec :
    (∀ (text : String) (m : Mention), m ∈ MessageService.extractMentions text →
      ∃ pre w post, text.toList = pre ++ '@' :: (w ++ post) ∧
        m.startIndex = pre.length ∧ w ≠ [] ∧
        (∀ c ∈ w, MessageService.wordChar c = true) ∧
        (∀ c, post.head? = some c → MessageService.wordChar c = false) ∧
        m.length = w.length + 1 ∧
        m.mentionType = MessageService.classifyMention w) ∧
    (∀ text : String, List.Pairwise (fun a b => a.startIndex < b.startIndex)
        (MessageService.extractMentions text)) ∧
    (∀ (text : String) (j : Nat) (c : Char),
        text.toList.get? j = some '@' → text.toList.get? (j + 1) = some c →
        MessageService.wordChar c = true →
        ∃ m ∈ MessageService.extractMentions text, m.startIndex = j) ∧
    MessageService.extractMentions "Hello @all" =
      [{ mentionType := .all, startIndex := 6, length := 4 }] := by
  refine ⟨?_, ?_, ?_, ?_⟩
  · intro text m hm
    rw [MessageService.extractMentions] at hm
    obtain ⟨pre, w, post, hl, hst, hne, hwc, hpost, hlen, hty⟩ :=
      scanMentions_sound text.toList 0 m hm
    exact ⟨pre, w, post, hl, by simpa using hst, hne, hwc, hpost, hlen, hty⟩
  · intro text
    exact scanMentions_ordered text.toList 0
  · intro text j c h1 h2 h3
    obtain ⟨m, hm, hst⟩ := scanMentions_complete text.toList 0 j c h1 h2 h3
    exact ⟨m, hm, by simpa using hst⟩
  · simp [MessageService.extractMentions, MessageService.scanMentions,
      MessageService.wordChar, MessageService.classifyMention, List.takeWhile]

/-- Witness for C6: the recorded mention of Hello @all sits on the @
character, the token starting at offset 6 is recorded, and the full
mention list is the expected singleton. -/
theorem extractMentions_spec_witness :
    "Hello @all".toList.get?
      (({ mentionType := .all, startIndex := 6, length := 4 } : Mention).startIndex) =
      some '@' ∧
    (MessageService.extractMentions "Hello @all").any
      (fun m => m.startIndex == 6) = true ∧
    MessageService.extractMentions "Hello @all" =
      [{ mentionType := .all, startIndex := 6, length := 4 }] := by
  have hcon := extractMentions_spec.2.2.2
  refine ⟨?_, ?_, hcon⟩
  · obtain ⟨pre, w, post, hl, hst, -⟩ :=
      extractMentions_spec.1 "Hello @all" ⟨.all, 6, 4⟩
        (by rw [hcon]; exact List.mem_singleton_self _)
    rw [hl]
    rw [show ({ mentionType := .all, startIndex := 6, length := 4 } :
      Mention).startIndex = pre.length from hst]
    exact get?_append_cons pre '@' (w ++ post)
  · obtain ⟨m, hm, hst⟩ :=
      extractMentions_spec.2.2.1 "Hello @all" 6 'a' (by decide) (by decide) (by decide)
    rw [List.any_eq_true]
    exact ⟨m, hm, by simp [hst]⟩

end Moltslack
